import Mathlib

/-!
# Verification of the notes.api hierarchy & collaborative-access core

Shallow embedding of the note-hierarchy storage
(`src/repository/noteRelations.repository.ts`), the note-settings /
invitation service (`src/domain/service/noteSettings.ts`), the team
entity (`src/domain/entities/team.ts`) and the note router's access
decisions (`src/unnamed/part_003`).

A `note_relations` row `{ id, noteId, parentId }` is embedded as the pair
`(noteId, parentId)`; the auto-increment `id` column is never consulted
by the verified operations, so it is dropped.  A table is a `List` of
rows in insertion order: `Model.create` appends, `Model.findOne` is
`List.find?`, `Model.update`/`Model.destroy` report the number of
matched rows exactly as Sequelize's `affectedRows` does.
-/

/-- Team member role, from `src/domain/entities/team.ts`
(`enum MemberRole { read = 0, write = 1 }`). -/
inductive MemberRole where
  | read
  | write
deriving DecidableEq, Repr

/-- The fields of the note entity consulted by the access decision:
internal id and creator user id. -/
structure Note where
  id : Nat
  creatorId : Nat
deriving DecidableEq, Repr

/-- A team-role lookup, embedding
`NoteSettingsService.getUserRoleByUserIdAndNoteId(userId, noteId)`:
`none` when the user is not a member of the note's team. -/
def RoleLookup : Type := Nat → Nat → Option MemberRole

/-- The `canEdit` decision of `GET /resolve-hostname/:hostname`
(`src/unnamed/part_003`, lines 266-285): `canEdit` starts `false`; only
when `request.userId !== null` is the member role fetched and
`canEdit = memberRole === MemberRole.Write || note.creatorId === request.userId`
evaluated. -/
def canEditByHostname (userId : Option Nat) (getRole : RoleLookup) (note : Note) : Bool :=
  match userId with
  | none => false
  | some uid =>
      decide (getRole uid note.id = some MemberRole.write) || decide (note.creatorId = uid)

/-- The `canEdit` decision of `GET /:notePublicId`
(`src/unnamed/part_003`, line 105):
`canEdit = memberRole === MemberRole.Write || note.creatorId === request.userId`,
where `memberRole` was produced by the member-role resolver and
`request.userId` may be `null` (in JavaScript a number never strictly
equals `null`). -/
def canEditById (userId : Option Nat) (memberRole : Option MemberRole) (note : Note) : Bool :=
  decide (memberRole = some MemberRole.write) || decide (userId = some note.creatorId)

/-! ## Hierarchy storage (`NoteRelationsSequelizeStorage`) -/

/-- A `note_relations` row `(noteId, parentId)`. -/
abbrev NoteRelationRow : Type := Nat × Nat

/-- `createNoteRelation(noteId, parentId)`
(`noteRelations.repository.ts` lines 166-173): a plain
`Model.create` INSERT — the row is appended unconditionally (the model
declares no unique constraint on `noteId`), and the returned boolean
`newRelation.id !== undefined` is `true` for every inserted row. -/
def createNoteRelation (e : List NoteRelationRow) (noteId parentId : Nat) :
    List NoteRelationRow × Bool :=
  (e ++ [(noteId, parentId)], true)

/-- `getParentNoteIdByNoteId(noteId)` (lines 179-188): `findOne` on
`noteId`, returning the row's `parentId` or `null`. -/
def getParentNoteIdByNoteId (e : List NoteRelationRow) (noteId : Nat) : Option Nat :=
  (e.find? (fun r => r.1 == noteId)).map (fun r => r.2)

/-- Number of rows whose child column equals `noteId` — the
`affectedRows` count of an UPDATE/DELETE with `where: { noteId }`. -/
def countChildRows (e : List NoteRelationRow) (noteId : Nat) : Nat :=
  (e.filter (fun r => r.1 == noteId)).length

/-- `updateNoteRelationById(noteId, parentId)` (lines 196-207): an
UPDATE of `parentId` on every row with this `noteId`; the returned
boolean is `affectedRowsCount === 1`.  No row is inserted when none
matches. -/
def updateNoteRelationById (e : List NoteRelationRow) (noteId parentId : Nat) :
    List NoteRelationRow × Bool :=
  (e.map (fun r => if r.1 == noteId then (r.1, parentId) else r),
   countChildRows e noteId == 1)

/-- `unlinkParent(noteId)` (lines 234-245): `destroy` of every row with
this `noteId`; the returned boolean is `affectedRows === 1`. -/
def unlinkParent (e : List NoteRelationRow) (noteId : Nat) :
    List NoteRelationRow × Bool :=
  (e.filter (fun r => !(r.1 == noteId)), countChildRows e noteId == 1)

/-! ## The recursive ancestor CTE (lines 287-345)

Both `getNoteParentsIds` and `getUltimateParentByNoteId` run the same
`WITH RECURSIVE note_parents` query: starting from the rows whose
`note_id` is the argument, it repeatedly joins the row whose `note_id`
equals the previous `parent_id`.  On a store satisfying the
single-parent invariant this is exactly the iterated
`getParentNoteIdByNoteId` walk; the SQL recursion is unbounded, so the
embedding supplies fuel (`cteFuel`), which is sufficient to reach the
fixpoint on every acyclic store (`walkEnd_cteFuel_of_acyclic` below). -/

/-- Fuel bound used to embed the unbounded recursive CTE. -/
def cteFuel (e : List NoteRelationRow) : Nat := e.length + 1

/-- The rows produced by the recursive CTE, in production order:
`(n, p₁), (p₁, p₂), …` following the parent chain. -/
def chainPairs (e : List NoteRelationRow) : Nat → Nat → List NoteRelationRow
  | _, 0 => []
  | n, fuel + 1 =>
      match getParentNoteIdByNoteId e n with
      | none => []
      | some p => (n, p) :: chainPairs e p fuel

/-- The node reached after walking up to `fuel` parent steps. -/
def walkEnd (e : List NoteRelationRow) : Nat → Nat → Nat
  | n, 0 => n
  | n, fuel + 1 =>
      match getParentNoteIdByNoteId e n with
      | none => n
      | some p => walkEnd e p fuel

/-- `getNoteParentsIds(noteId)` (lines 287-315): the CTE's `parent_id`
column, then `noteParents.reverse()`. -/
def getNoteParentsIds (e : List NoteRelationRow) (noteId : Nat) : List Nat :=
  ((chainPairs e noteId (cteFuel e)).map (fun r => r.2)).reverse

/-- `getUltimateParentByNoteId(noteId)` (lines 321-345): the CTE's
`parent_id` column with `ORDER BY parent_id ASC LIMIT 1`, i.e. the
minimum collected parent id, and `null` when no row was produced. -/
def getUltimateParentByNoteId (e : List NoteRelationRow) (noteId : Nat) : Option Nat :=
  ((chainPairs e noteId (cteFuel e)).map (fun r => r.2)).min?

/-- The recursive CTE terminates exactly when the iterated parent walk
reaches a note with no parent row; with a cycle in the store the
`UNION ALL` recursion never empties its working table. -/
def CTETerminates (e : List NoteRelationRow) (noteId : Nat) : Prop :=
  ∃ fuel, getParentNoteIdByNoteId e (walkEnd e noteId fuel) = none

/-! ## Ancestry as a relation, and guarded hierarchy mutations -/

/-- `Reach e a b`: note `b` is an ancestor of note `a` (one or more
parent edges). -/
inductive Reach (e : List NoteRelationRow) : Nat → Nat → Prop
  | base {a b : Nat} : (a, b) ∈ e → Reach e a b
  | step {a b c : Nat} : (a, b) ∈ e → Reach e b c → Reach e a c

/-- The edge set contains no note that is its own ancestor. -/
def Acyclic (e : List NoteRelationRow) : Prop := ∀ x, ¬ Reach e x x

/-- Modelled from the spec: `wouldCreateCycle(noteId, candidateParentId)`
is required by the spec ("This check MUST be called … before the edge is
committed") but no implementation exists under `src/`.  Spec §4.2: true
iff `candidateParentId` equals `noteId` or `noteId` appears anywhere in
the ancestor chain of `candidateParentId`; chain membership is expressed
as edge reachability. -/
def wouldCreateCycle (e : List NoteRelationRow) (noteId candidateParentId : Nat) : Prop :=
  candidateParentId = noteId ∨ Reach e candidateParentId noteId

/-- A hierarchy mutation: `attach` is
`NoteRelationsRepository.addNoteRelation` (INSERT), `reparent` is
`NoteRelationsRepository.updateNoteRelationById` (UPDATE). -/
inductive HierarchyOp where
  | attach (noteId parentId : Nat)
  | reparent (noteId parentId : Nat)

/-- Effect of one mutation on the `note_relations` table. -/
def applyOp (e : List NoteRelationRow) : HierarchyOp → List NoteRelationRow
  | .attach n p => (createNoteRelation e n p).1
  | .reparent n p => (updateNoteRelationById e n p).1

/-- The operation passes the `wouldCreateCycle` check (evaluated on the
pre-state) as false. -/
def opGuard (e : List NoteRelationRow) : HierarchyOp → Prop
  | .attach n p => ¬ wouldCreateCycle e n p
  | .reparent n p => ¬ wouldCreateCycle e n p

/-- A run of attach/reparent operations in which every operation passes
the `wouldCreateCycle` check as false before its edge is committed. -/
inductive GuardedRun : List NoteRelationRow → List HierarchyOp → List NoteRelationRow → Prop
  | nil (e : List NoteRelationRow) : GuardedRun e [] e
  | cons (e e' : List NoteRelationRow) (op : HierarchyOp) (ops : List HierarchyOp) :
      opGuard e op → GuardedRun (applyOp e op) ops e' → GuardedRun e (op :: ops) e'

/-! ## Note settings, team and the invitation flow -/

/-- A `NoteSettings` row (`src/unnamed/part_000`): `{ id, noteId,
customHostname?, isPublic, invitationHash }`. -/
structure NoteSettingsRow where
  id : Nat
  noteId : Nat
  customHostname : Option String
  isPublic : Bool
  invitationHash : String
deriving DecidableEq, Repr

/-- `NoteSettingsCreationAttributes` (`src/unnamed/part_000`): a
settings record without the database-generated `id`. -/
structure NoteSettingsCreationAttributes where
  noteId : Nat
  customHostname : Option String
  isPublic : Bool
  invitationHash : String
deriving DecidableEq, Repr

/-- A team member row (`src/domain/entities/team.ts`):
`{ id, noteId, userId, role }`. -/
structure TeamMember where
  id : Nat
  noteId : Nat
  userId : Nat
  role : MemberRole
deriving DecidableEq, Repr

/-- `NoteSettingsService.addNoteSettings(noteId, isPublic = true)`
(`src/domain/service/noteSettings.ts` lines 47-53): builds the creation
attributes `{ noteId, isPublic, invitationHash: createInvitationHash() }`.
`createInvitationHash` lives in `@infrastructure/utils` outside `src/`,
so the freshly generated hash is passed in as `freshHash`; the `isPublic`
parameter defaults to `true` exactly as in the source. -/
def addNoteSettings (noteId : Nat) (freshHash : String) (isPublic : Bool := true) :
    NoteSettingsCreationAttributes :=
  { noteId := noteId
    customHostname := none
    isPublic := isPublic
    invitationHash := freshHash }

/-- The settings-creation step of `POST /` in the note router
(`src/unnamed/part_003` line 182): `noteSettingsService.addNoteSettings(addedNote.id)`
— called without the visibility flag, so the default applies. -/
def postNoteRouteSettings (addedNoteId : Nat) (freshHash : String) :
    NoteSettingsCreationAttributes :=
  addNoteSettings addedNoteId freshHash

/-- `getNoteSettingsByNoteId(id)` resolved against a concrete settings
table: the first row with this `noteId`, if any (the storage backend is
not under `src/`; the repository forwards to it unchanged). -/
def getNoteSettingsByNoteId (store : List NoteSettingsRow) (noteId : Nat) :
    Option NoteSettingsRow :=
  store.find? (fun r => r.noteId == noteId)

/-- The `patchNoteSettingsById` storage update specialised to the one
field `regenerateInvitationHash` sends (`{ invitationHash }`): every row
with the given `id` gets the new hash, all other fields untouched. -/
def patchInvitationHashById (store : List NoteSettingsRow) (id : Nat) (newHash : String) :
    List NoteSettingsRow :=
  store.map (fun r => if r.id == id then { r with invitationHash := newHash } else r)

/-- `NoteSettingsService.patchNoteSettingsByNoteId(noteId, data)`
(lines 62-72) restricted to `data = { invitationHash }`: looks the
settings row up by `noteId`, then patches by its `id`; `none` embeds the
thrown error when no settings row exists. -/
def patchInvitationHashByNoteId (store : List NoteSettingsRow) (noteId : Nat)
    (newHash : String) : Option (List NoteSettingsRow) :=
  match getNoteSettingsByNoteId store noteId with
  | none => none
  | some s => some (patchInvitationHashById store s.id newHash)

/-- `NoteSettingsService.regenerateInvitationHash(noteId)` (lines
120-127): patches the note's settings with a freshly generated
invitation hash (`createInvitationHash()` is infrastructure code outside
`src/`, so the new hash is a parameter). -/
def regenerateInvitationHash (store : List NoteSettingsRow) (noteId : Nat)
    (newHash : String) : Option (List NoteSettingsRow) :=
  patchInvitationHashByNoteId store noteId newHash

/-- Invitation-redemption errors (spec §7). -/
inductive JoinError where
  | InvitationNotFound
  | AlreadyMember
deriving DecidableEq, Repr

/-- Modelled from the spec: `NoteSettingsService.addUserToTeamByInvitationHash`
is invoked by `JoinRouter` (`src/presentation/http/router/join.ts`) but
its implementation is not under `src/`.  Spec §4.4 `redeem(hash, userId)`:
resolve the hash to a note — failing with `InvitationNotFound` when no
settings row carries that hash — then create the team membership
`(noteId, userId, read)`, surfacing `AlreadyMember` when a row for the
pair already exists. -/
def addUserToTeamByInvitationHash (store : List NoteSettingsRow) (team : List TeamMember)
    (hash : String) (userId : Nat) : Except JoinError TeamMember :=
  match store.find? (fun r => r.invitationHash == hash) with
  | none => .error .InvitationNotFound
  | some s =>
      if team.any (fun m => m.noteId == s.noteId && m.userId == userId) then
        .error .AlreadyMember
      else
        .ok { id := team.length + 1, noteId := s.noteId, userId := userId, role := .read }

/-- Modelled from the spec: the read-access decision (the
`notePublicOrUserInTeam` policy named on `GET /:notePublicId` is not
under `src/`).  Spec §4.5: `canRead := note.isPublic OR userId ==
note.creatorId OR resolveRole(userId, noteId).isSome()`, with anonymous
callers readable only on public notes. -/
def canRead (userId : Option Nat) (getRole : RoleLookup) (note : Note)
    (settings : NoteSettingsCreationAttributes) : Bool :=
  settings.isPublic ||
    match userId with
    | none => false
    | some uid => decide (uid = note.creatorId) || (getRole uid note.id).isSome

/-! ## Helper lemmas on the storage operations -/

lemma countChildRows_nil (n : Nat) : countChildRows [] n = 0 := rfl

lemma countChildRows_cons_ne {r : NoteRelationRow} {n : Nat} (e : List NoteRelationRow)
    (h : (r.1 == n) = false) : countChildRows (r :: e) n = countChildRows e n := by
  simp [countChildRows, List.filter_cons, h]

lemma getParent_update_of_countChild_ne_zero {e : List NoteRelationRow} {n : Nat} (p : Nat)
    (h : countChildRows e n ≠ 0) :
    getParentNoteIdByNoteId (updateNoteRelationById e n p).1 n = some p := by
  induction e with
  | nil => exact absurd rfl h
  | cons r tl ih =>
      by_cases hr : (r.1 == n) = true
      · have h1 : (if r.1 == n then (r.1, p) else r) = (r.1, p) := by rw [if_pos hr]
        show getParentNoteIdByNoteId
          ((if r.1 == n then (r.1, p) else r) :: tl.map (fun s => if s.1 == n then (s.1, p) else s)) n
            = some p
        rw [h1]
        unfold getParentNoteIdByNoteId
        simp [List.find?_cons, hr]
      · have hr' : (r.1 == n) = false := by
          cases hq : (r.1 == n) with
          | true => exact absurd hq hr
          | false => rfl
        have h1 : (if r.1 == n then (r.1, p) else r) = r := by simp [hr']
        have hcnt : countChildRows tl n ≠ 0 := by
          rw [countChildRows_cons_ne tl hr'] at h
          exact h
        show getParentNoteIdByNoteId
          ((if r.1 == n then (r.1, p) else r) :: tl.map (fun s => if s.1 == n then (s.1, p) else s)) n
            = some p
        rw [h1]
        unfold getParentNoteIdByNoteId
        have ihx := ih hcnt
        unfold updateNoteRelationById getParentNoteIdByNoteId at ihx
        simpa [List.find?_cons, hr'] using ihx

/-! ## Claim C1 — write access -/

/-- C1: `canEdit` is true iff the caller is the note's creator or holds
the `write` team role; the `isPublic` flag is not an input of the
decision, so it never grants write access (a non-creator without the
`write` role always gets `false`); an anonymous caller (`userId = none`)
always gets `false`. -/
theorem C1_canEdit_access :
    (∀ (userId : Option Nat) (getRole : RoleLookup) (note : Note),
        canEditByHostname userId getRole note = true ↔
          (∃ uid, userId = some uid ∧
            (uid = note.creatorId ∨ getRole uid note.id = some MemberRole.write)))
    ∧ (∀ (getRole : RoleLookup) (note : Note),
        canEditByHostname none getRole note = false)
    ∧ (∀ (uid : Nat) (getRole : RoleLookup) (note : Note),
        uid ≠ note.creatorId → getRole uid note.id ≠ some MemberRole.write →
          canEditByHostname (some uid) getRole note = false)
    ∧ (∀ (userId : Option Nat) (memberRole : Option MemberRole) (note : Note),
        canEditById userId memberRole note = true ↔
          (memberRole = some MemberRole.write ∨ userId = some note.creatorId)) := by
  refine ⟨?_, ?_, ?_, ?_⟩
  · intro userId getRole note
    cases userId with
    | none =>
        simp [canEditByHostname]
    | some uid =>
        simp only [canEditByHostname, Bool.or_eq_true, decide_eq_true_eq,
          Option.some.injEq]
        constructor
        · rintro (hrole | hcreator)
          · exact ⟨uid, rfl, Or.inr hrole⟩
          · exact ⟨uid, rfl, Or.inl hcreator.symm⟩
        · rintro ⟨uid', huid, (hcreator | hrole)⟩
          · subst huid
            exact Or.inr hcreator.symm
          · subst huid
            exact Or.inl hrole
  · intro getRole note
    rfl
  · intro uid getRole note hcreator hrole
    simp only [canEditByHostname, Bool.or_eq_false_iff, decide_eq_false_iff_not]
    exact ⟨hrole, fun h => hcreator h.symm⟩
  · intro userId memberRole note
    simp [canEditById]

/-- C1 witness: a user who is neither the creator nor a `write` member
cannot edit; an anonymous caller cannot edit; the creator can. -/
theorem C1_canEdit_access_witness :
    canEditByHostname (some 5) (fun _ _ => none) ⟨1, 7⟩ = false
    ∧ canEditByHostname none (fun _ _ => some MemberRole.write) ⟨1, 7⟩ = false
    ∧ canEditById (some 7) none ⟨1, 7⟩ = true := by
  refine ⟨?_, ?_, ?_⟩
  · exact C1_canEdit_access.2.2.1 5 (fun _ _ => none) ⟨1, 7⟩ (by decide)
      (fun h => Option.noConfusion h)
  · exact C1_canEdit_access.2.1 (fun _ _ => some MemberRole.write) ⟨1, 7⟩
  · exact (C1_canEdit_access.2.2.2 (some 7) none ⟨1, 7⟩).mpr (Or.inr rfl)

/-! ## Claim C3 — single-parent invariant -/

/-- C3 (code bug): `createNoteRelation` is a plain INSERT with no
uniqueness on `noteId` — attaching note 1 under parent 2 and then under
parent 3 leaves two rows with child 1 instead of replacing the first
edge. -/
theorem C3_attach_duplicates_child :
    (createNoteRelation (createNoteRelation [] 1 2).1 1 3).1 = [(1, 2), (1, 3)]
    ∧ countChildRows (createNoteRelation (createNoteRelation [] 1 2).1 1 3).1 1 = 2 := by
  exact ⟨rfl, rfl⟩

/-! ## Claim C6 — reparent -/

/-- C6 counterexample: `reparent` on a note with no existing edge does
not insert — on the empty table `updateNoteRelationById(1, 2)` leaves
the table empty and reports failure, while the claim says it succeeds by
inserting a new edge. -/
theorem C6_reparent_counterexample :
    updateNoteRelationById [] 1 2 = ([], false) := rfl

/-- C6 (amended): `reparent(noteId, newParentId)` is UPDATE-only — when
no edge for `noteId` exists it changes nothing and returns `false`
instead of inserting; when exactly one edge exists it returns `true`,
the note's parent lookup afterwards yields the new parent, and every
row for other notes is left as it was. -/
theorem C6_reparent_update_semantics (e : List NoteRelationRow) (n p : Nat) :
    (countChildRows e n = 0 → updateNoteRelationById e n p = (e, false))
    ∧ (countChildRows e n = 1 →
        (updateNoteRelationById e n p).2 = true
        ∧ getParentNoteIdByNoteId (updateNoteRelationById e n p).1 n = some p)
    ∧ (∀ r ∈ (updateNoteRelationById e n p).1, r.1 ≠ n → r ∈ e) := by
  refine ⟨?_, ?_, ?_⟩
  · intro h0
    have hall : ∀ r ∈ e, (r.1 == n) = false := by
      intro r hr
      cases hq : (r.1 == n) with
      | false => rfl
      | true =>
          exfalso
          have : r ∈ e.filter (fun s => s.1 == n) := List.mem_filter.mpr ⟨hr, hq⟩
          have : (e.filter (fun s => s.1 == n)).length ≠ 0 :=
            List.ne_nil_of_mem this ∘ List.eq_nil_of_length_eq_zero
          exact this h0
    have hmap : e.map (fun r => if r.1 == n then (r.1, p) else r) = e := by
      calc e.map (fun r => if r.1 == n then (r.1, p) else r)
          = e.map id := List.map_congr_left (fun r hr => by simp [hall r hr])
        _ = e := List.map_id e
    unfold updateNoteRelationById
    rw [hmap, h0]
    rfl
  · intro h1
    constructor
    · show (countChildRows e n == 1) = true
      rw [h1]
      rfl
    · exact getParent_update_of_countChild_ne_zero p (by rw [h1]; exact one_ne_zero)
  · intro r hr hne
    rcases List.mem_map.mp hr with ⟨r₀, hr₀, hmap⟩
    by_cases hq : (r₀.1 == n) = true
    · exfalso
      rw [if_pos hq] at hmap
      apply hne
      rw [← hmap]
      show r₀.1 = n
      exact eq_of_beq hq
    · rw [if_neg hq] at hmap
      rw [← hmap]
      exact hr₀

/-- C6 witness: reparenting with no existing edge is a failing no-op;
reparenting a note with one edge succeeds and the new parent is
readable back. -/
theorem C6_reparent_update_semantics_witness :
    updateNoteRelationById [(3, 4)] 1 2 = ([(3, 4)], false)
    ∧ (updateNoteRelationById [(1, 5)] 1 2).2 = true
    ∧ getParentNoteIdByNoteId (updateNoteRelationById [(1, 5)] 1 2).1 1 = some 2 := by
  refine ⟨?_, ?_, ?_⟩
  · exact (C6_reparent_update_semantics [(3, 4)] 1 2).1 (by decide)
  · exact ((C6_reparent_update_semantics [(1, 5)] 1 2).2.1 (by decide)).1
  · exact ((C6_reparent_update_semantics [(1, 5)] 1 2).2.1 (by decide)).2

/-! ## Claim C7 — detach -/

/-- C7 counterexample: `detach` on a note with no parent is a no-op but
returns `false`, not success — on a table where note 1 has no parent,
`unlinkParent(1)` leaves the table unchanged and reports `false`, while
the claim says both of two consecutive detaches return success. -/
theorem C7_detach_counterexample :
    unlinkParent [(2, 3)] 1 = ([(2, 3)], false)
    ∧ getParentNoteIdByNoteId [(2, 3)] 1 = none := by
  exact ⟨rfl, rfl⟩

/-- C7 (amended): `detach(noteId)` removes every edge where `noteId` is
the child and returns `true` only when exactly one edge was removed; on
a note with no parent it is a no-op that returns `false` (no exception);
after any detach the parent lookup yields `none`, and a second detach is
again a no-op returning `false`. -/
theorem C7_detach_semantics (e : List NoteRelationRow) (n : Nat) :
    ((unlinkParent e n).2 = true ↔ countChildRows e n = 1)
    ∧ getParentNoteIdByNoteId (unlinkParent e n).1 n = none
    ∧ unlinkParent (unlinkParent e n).1 n = ((unlinkParent e n).1, false)
    ∧ (countChildRows e n = 0 → (unlinkParent e n).1 = e) := by
  have hfilter_mem : ∀ r ∈ e.filter (fun s => !(s.1 == n)), (r.1 == n) = false := by
    intro r hr
    have := (List.mem_filter.mp hr).2
    cases hq : (r.1 == n) with
    | false => rfl
    | true =>
        rw [hq] at this
        exact absurd this (by decide)
  refine ⟨?_, ?_, ?_, ?_⟩
  · show (countChildRows e n == 1) = true ↔ countChildRows e n = 1
    simp
  · unfold unlinkParent getParentNoteIdByNoteId
    rw [List.find?_eq_none.mpr]
    · rfl
    · intro r hr
      rw [hfilter_mem r hr]
      exact Bool.false_ne_true
  · unfold unlinkParent
    have h1 : (e.filter (fun s => !(s.1 == n))).filter (fun s => !(s.1 == n))
        = e.filter (fun s => !(s.1 == n)) :=
      List.filter_eq_self.mpr (fun r hr => by rw [hfilter_mem r hr]; rfl)
    have h2 : countChildRows (e.filter (fun s => !(s.1 == n))) n = 0 := by
      unfold countChildRows
      rw [List.length_eq_zero]
      rw [List.filter_eq_nil_iff]
      intro r hr
      rw [hfilter_mem r hr]
      exact Bool.false_ne_true
    rw [h1, h2]
    rfl
  · intro h0
    show e.filter (fun s => !(s.1 == n)) = e
    apply List.filter_eq_self.mpr
    intro r hr
    cases hq : (r.1 == n) with
    | false => rfl
    | true =>
        exfalso
        have hmem : r ∈ e.filter (fun s => s.1 == n) := List.mem_filter.mpr ⟨hr, hq⟩
        have hlen : (e.filter (fun s => s.1 == n)).length = 0 := h0
        rw [List.length_eq_zero] at hlen
        rw [hlen] at hmem
        exact absurd hmem (List.not_mem_nil r)

/-- C7 witness: detaching note 1 with exactly one parent edge succeeds;
afterwards its parent is `none` and a second detach is a `false` no-op;
detaching a note with no parent leaves the table unchanged. -/
theorem C7_detach_semantics_witness :
    (unlinkParent [(1, 2)] 1).2 = true
    ∧ getParentNoteIdByNoteId (unlinkParent [(1, 2)] 1).1 1 = none
    ∧ unlinkParent (unlinkParent [(1, 2)] 1).1 1 = ((unlinkParent [(1, 2)] 1).1, false)
    ∧ (unlinkParent [(2, 3)] 1).1 = [(2, 3)] := by
  refine ⟨?_, ?_, ?_, ?_⟩
  · exact (C7_detach_semantics [(1, 2)] 1).1.mpr (by decide)
  · exact (C7_detach_semantics [(1, 2)] 1).2.1
  · exact (C7_detach_semantics [(1, 2)] 1).2.2.1
  · exact (C7_detach_semantics [(2, 3)] 1).2.2.2 (by decide)

/-! ## Claim C10 — default public visibility -/

/-- C10: `addNoteSettings` defaults `isPublic` to `true` and the
note-creation route calls it without the flag, so a freshly created
note's settings are public and an anonymous caller passes the read
check. -/
theorem C10_default_public_visibility :
    (∀ (noteId : Nat) (freshHash : String),
        (postNoteRouteSettings noteId freshHash).isPublic = true)
    ∧ (∀ (noteId : Nat) (freshHash : String) (getRole : RoleLookup) (note : Note),
        canRead none getRole note (postNoteRouteSettings noteId freshHash) = true) := by
  exact ⟨fun _ _ => rfl, fun _ _ _ _ => rfl⟩

/-! ## Helper lemmas on the ancestor walk -/

lemma getParent_mem {e : List NoteRelationRow} {n p : Nat}
    (h : getParentNoteIdByNoteId e n = some p) : (n, p) ∈ e := by
  unfold getParentNoteIdByNoteId at h
  rcases Option.map_eq_some'.mp h with ⟨r, hfind, hsnd⟩
  have hmem : r ∈ e := List.mem_of_find?_eq_some hfind
  have hfst := @List.find?_some NoteRelationRow (fun s => s.1 == n) r e hfind
  have hr : r = (n, p) := by
    rcases r with ⟨a, b⟩
    have ha : a = n := eq_of_beq hfst
    have hb : b = p := hsnd
    rw [ha, hb]
  rw [hr] at hmem
  exact hmem

lemma walkEnd_succ_of_none {e : List NoteRelationRow} {n : Nat} (f : Nat)
    (h : getParentNoteIdByNoteId e n = none) : walkEnd e n (f + 1) = n := by
  simp only [walkEnd, h]

lemma walkEnd_succ_of_some {e : List NoteRelationRow} {n p : Nat} (f : Nat)
    (h : getParentNoteIdByNoteId e n = some p) : walkEnd e n (f + 1) = walkEnd e p f := by
  simp only [walkEnd, h]

lemma walkEnd_of_none {e : List NoteRelationRow} {n : Nat}
    (h : getParentNoteIdByNoteId e n = none) : ∀ f, walkEnd e n f = n := by
  intro f
  cases f with
  | zero => rfl
  | succ f => exact walkEnd_succ_of_none f h

lemma walkEnd_add (e : List NoteRelationRow) :
    ∀ (a b n : Nat), walkEnd e n (a + b) = walkEnd e (walkEnd e n a) b := by
  intro a
  induction a with
  | zero =>
      intro b n
      rw [Nat.zero_add]
      rfl
  | succ a ih =>
      intro b n
      have hrw : a + 1 + b = (a + b) + 1 := by omega
      rw [hrw]
      cases hp : getParentNoteIdByNoteId e n with
      | none =>
          rw [walkEnd_of_none hp, walkEnd_of_none hp, walkEnd_of_none hp]
      | some p =>
          rw [walkEnd_succ_of_some (a + b) hp, walkEnd_succ_of_some a hp]
          exact ih b p

lemma reach_walkEnd {e : List NoteRelationRow} :
    ∀ (f n p : Nat), getParentNoteIdByNoteId e n = some p →
      Reach e n (walkEnd e n (f + 1)) := by
  intro f
  induction f with
  | zero =>
      intro n p h
      rw [walkEnd_succ_of_some 0 h]
      exact Reach.base (getParent_mem h)
  | succ f ih =>
      intro n p h
      rw [walkEnd_succ_of_some (f + 1) h]
      cases hq : getParentNoteIdByNoteId e p with
      | none =>
          rw [walkEnd_of_none hq]
          exact Reach.base (getParent_mem h)
      | some q =>
          exact Reach.step (getParent_mem h) (ih p q hq)
lemma walkEnd_stable {e : List NoteRelationRow} {n f : Nat}
    (h : getParentNoteIdByNoteId e (walkEnd e n f) = none) :
    ∀ k, walkEnd e n (f + k) = walkEnd e n f := by
  intro k
  rw [walkEnd_add]
  exact walkEnd_of_none h k

/-- On an acyclic store, the iterated parent walk reaches a parentless
note within `e.length` steps: the recursive CTE terminates. -/
lemma walkEnd_length_of_acyclic {e : List NoteRelationRow} (hA : Acyclic e) (n : Nat) :
    getParentNoteIdByNoteId e (walkEnd e n e.length) = none := by
  by_contra hne
  have hall : ∀ f ≤ e.length, getParentNoteIdByNoteId e (walkEnd e n f) ≠ none := by
    intro f hf hnone
    have := walkEnd_stable hnone (e.length - f)
    rw [Nat.add_sub_cancel' hf] at this
    rw [this] at hne
    exact hne hnone
  have hinj : ∀ i ≤ e.length, ∀ j ≤ e.length,
      walkEnd e n i = walkEnd e n j → i = j := by
    have key : ∀ i j, i ≤ e.length → j ≤ e.length → i < j →
        walkEnd e n i ≠ walkEnd e n j := by
      intro i j hi hj hij heq
      rcases Option.ne_none_iff_exists'.mp (hall i hi) with ⟨p, hp⟩
      have hdecomp : j = i + ((j - i - 1) + 1) := by omega
      have hcomp := walkEnd_add e i ((j - i - 1) + 1) n
      rw [← hdecomp] at hcomp
      have hreach : Reach e (walkEnd e n i) (walkEnd e n i) := by
        have hr := reach_walkEnd (j - i - 1) (walkEnd e n i) p hp
        rw [← hcomp, ← heq] at hr
        exact hr
      exact hA _ hreach
    intro i hi j hj heq
    rcases Nat.lt_trichotomy i j with hlt | heq' | hgt
    · exact absurd heq (key i j hi hj hlt)
    · exact heq'
    · exact absurd heq.symm (key j i hj hi hgt)
  have hnodup : ((List.range (e.length + 1)).map (fun i => walkEnd e n i)).Nodup := by
    apply List.Nodup.map_on
    · intro i hi j hj heq
      have hi' : i ≤ e.length := by
        have := List.mem_range.mp hi
        omega
      have hj' : j ≤ e.length := by
        have := List.mem_range.mp hj
        omega
      exact hinj i hi' j hj' heq
    · exact List.nodup_range _
  have hsub : ((List.range (e.length + 1)).map (fun i => walkEnd e n i)) ⊆
      e.map Prod.fst := by
    intro x hx
    rcases List.mem_map.mp hx with ⟨i, hi, hwx⟩
    have hi' : i ≤ e.length := by
      have := List.mem_range.mp hi
      omega
    rcases Option.ne_none_iff_exists'.mp (hall i hi') with ⟨p, hp⟩
    rw [← hwx]
    exact List.mem_map.mpr ⟨(walkEnd e n i, p), getParent_mem hp, rfl⟩
  have hle : e.length + 1 ≤ e.length := by
    have h1 := (List.subperm_of_subset hnodup hsub).length_le
    rw [List.length_map, List.length_range, List.length_map] at h1
    exact h1
  omega

/-! ## Helper lemmas on the CTE chain -/

lemma chainPairs_succ_of_none {e : List NoteRelationRow} {n : Nat} (f : Nat)
    (h : getParentNoteIdByNoteId e n = none) : chainPairs e n (f + 1) = [] := by
  simp only [chainPairs, h]

lemma chainPairs_succ_of_some {e : List NoteRelationRow} {n p : Nat} (f : Nat)
    (h : getParentNoteIdByNoteId e n = some p) :
    chainPairs e n (f + 1) = (n, p) :: chainPairs e p f := by
  simp only [chainPairs, h]

lemma chainPairs_cteFuel_nil_iff (e : List NoteRelationRow) (n : Nat) :
    chainPairs e n (cteFuel e) = [] ↔ getParentNoteIdByNoteId e n = none := by
  unfold cteFuel
  cases hp : getParentNoteIdByNoteId e n with
  | none => simp [chainPairs_succ_of_none _ hp]
  | some p => simp [chainPairs_succ_of_some _ hp]

/-- The last parent id produced by the CTE chain is the node where the
walk ends (or the chain is empty and the walk never moved). -/
lemma chain_parents_getLast (e : List NoteRelationRow) :
    ∀ (f n : Nat),
      ((chainPairs e n f).map (fun r => r.2)).getLast? = some (walkEnd e n f)
      ∨ (chainPairs e n f = [] ∧ walkEnd e n f = n) := by
  intro f
  induction f with
  | zero =>
      intro n
      exact Or.inr ⟨rfl, rfl⟩
  | succ f ih =>
      intro n
      cases hp : getParentNoteIdByNoteId e n with
      | none =>
          exact Or.inr ⟨chainPairs_succ_of_none f hp, walkEnd_of_none hp _⟩
      | some p =>
          left
          rw [chainPairs_succ_of_some f hp, walkEnd_succ_of_some f hp, List.map_cons]
          rcases ih p with hL | ⟨hnil, hw⟩
          · cases htail : (chainPairs e p f).map (fun r => r.2) with
            | nil =>
                rw [htail] at hL
                exact absurd hL (by simp)
            | cons q tl =>
                rw [htail] at hL
                rw [List.getLast?_cons_cons]
                exact hL
          · rw [hnil, List.map_nil, hw]
            rfl

/-! ## Claim C4 — ultimate root -/

/-- C4 counterexample: with edges `1→2→3` the code returns the
smallest-id ancestor 2 (the `ORDER BY parent_id ASC LIMIT 1` artifact),
not the top-most ancestor 3 required by the claim. -/
theorem C4_ultimate_root_counterexample :
    getUltimateParentByNoteId [(1, 2), (2, 3)] 1 = some 2 ∧ (2 : Nat) ≠ 3 := by
  exact ⟨by decide, by decide⟩

/-- C4 (amended): `getUltimateParentByNoteId(noteId)` returns `none` iff
the note has no parent; otherwise it returns the smallest id among the
ancestors collected by the traversal (`ORDER BY parent_id ASC LIMIT 1`),
which is the top-most ancestor only when the root happens to carry the
smallest id. -/
theorem C4_ultimate_root_min (e : List NoteRelationRow) (n : Nat) :
    (getUltimateParentByNoteId e n = none ↔ getParentNoteIdByNoteId e n = none)
    ∧ (∀ r, getUltimateParentByNoteId e n = some r →
        r ∈ getNoteParentsIds e n ∧ ∀ a ∈ getNoteParentsIds e n, r ≤ a) := by
  constructor
  · unfold getUltimateParentByNoteId
    rw [List.min?_eq_none_iff, List.map_eq_nil_iff]
    exact chainPairs_cteFuel_nil_iff e n
  · intro r hr
    unfold getUltimateParentByNoteId at hr
    rcases List.min?_eq_some_iff'.mp hr with ⟨hmem, hmin⟩
    constructor
    · unfold getNoteParentsIds
      exact List.mem_reverse.mpr hmem
    · intro a ha
      exact hmin a (List.mem_reverse.mp ha)

/-- C4 witness: on the empty table the result is `none`; with edges
`1→2→3` the returned id 2 is an ancestor of 1 and minimal among the
collected ancestors. -/
theorem C4_ultimate_root_min_witness :
    (getUltimateParentByNoteId [] 1 = none ↔ getParentNoteIdByNoteId [] 1 = none)
    ∧ 2 ∈ getNoteParentsIds [(1, 2), (2, 3)] 1
    ∧ 2 ≤ 3 := by
  refine ⟨(C4_ultimate_root_min [] 1).1, ?_, ?_⟩
  · exact ((C4_ultimate_root_min [(1, 2), (2, 3)] 1).2 2 (by decide)).1
  · exact ((C4_ultimate_root_min [(1, 2), (2, 3)] 1).2 2 (by decide)).2 3 (by decide)

/-! ## Claim C5 — ancestor chain -/

/-- C5: `getNoteParentsIds` returns the reversed child-to-root
traversal — empty iff the note has no parent; its last element is the
immediate parent; its first element is an ancestor with no parent of its
own (the root); with edges `1→2→3`, `getNoteParentsIds(1) = [3, 2]`. -/
theorem C5_ancestor_chain (e : List NoteRelationRow) (n : Nat)
    (hT : getParentNoteIdByNoteId e (walkEnd e n (cteFuel e)) = none) :
    (getNoteParentsIds e n = [] ↔ getParentNoteIdByNoteId e n = none)
    ∧ (∀ p, getParentNoteIdByNoteId e n = some p →
        (getNoteParentsIds e n).getLast? = some p)
    ∧ (∀ r, (getNoteParentsIds e n).head? = some r →
        getParentNoteIdByNoteId e r = none)
    ∧ getNoteParentsIds [(1, 2), (2, 3)] 1 = [3, 2] := by
  refine ⟨?_, ?_, ?_, by decide⟩
  · unfold getNoteParentsIds
    rw [List.reverse_eq_nil_iff, List.map_eq_nil_iff]
    exact chainPairs_cteFuel_nil_iff e n
  · intro p hp
    unfold getNoteParentsIds
    rw [List.getLast?_reverse]
    have hchain : chainPairs e n (cteFuel e) = (n, p) :: chainPairs e p e.length :=
      chainPairs_succ_of_some e.length hp
    rw [hchain, List.map_cons]
    rfl
  · intro r hr
    unfold getNoteParentsIds at hr
    rw [List.head?_reverse] at hr
    rcases chain_parents_getLast e (cteFuel e) n with hL | ⟨hnil, _⟩
    · rw [hL] at hr
      have : r = walkEnd e n (cteFuel e) := (Option.some.injEq _ _).mp hr.symm
      rw [this]
      exact hT
    · rw [hnil, List.map_nil] at hr
      exact absurd hr (by simp)

/-- C5 witness: with edges `1→2→3` the walk terminates, the chain's
last element is the immediate parent 2, and its head 3 has no parent. -/
theorem C5_ancestor_chain_witness :
    getParentNoteIdByNoteId [(1, 2), (2, 3)]
        (walkEnd [(1, 2), (2, 3)] 1 (cteFuel [(1, 2), (2, 3)])) = none
    ∧ (getNoteParentsIds [(1, 2), (2, 3)] 1).getLast? = some 2
    ∧ getParentNoteIdByNoteId [(1, 2), (2, 3)] 3 = none := by
  refine ⟨by decide, ?_, ?_⟩
  · exact (C5_ancestor_chain [(1, 2), (2, 3)] 1 (by decide)).2.1 2 (by decide)
  · exact (C5_ancestor_chain [(1, 2), (2, 3)] 1 (by decide)).2.2.1 3 (by decide)

/-! ## Helper lemmas on reachability -/

lemma reach_nil {a b : Nat} (h : Reach [] a b) : False := by
  cases h with
  | base hm => exact absurd hm (List.not_mem_nil _)
  | step hm _ => exact absurd hm (List.not_mem_nil _)

lemma reach_src_has_edge {e : List NoteRelationRow} {a b : Nat}
    (h : Reach e a b) : ∃ p, (a, p) ∈ e := by
  cases h with
  | base hm => exact ⟨b, hm⟩
  | step hm _ => exact ⟨_, hm⟩

lemma reach_mono {e₁ e₂ : List NoteRelationRow} (hsub : ∀ r ∈ e₁, r ∈ e₂)
    {a b : Nat} (h : Reach e₁ a b) : Reach e₂ a b := by
  induction h with
  | base hm => exact Reach.base (hsub _ hm)
  | step hm _ ih => exact Reach.step (hsub _ hm) ih

lemma reach_trans {e : List NoteRelationRow} {a b c : Nat}
    (h1 : Reach e a b) (h2 : Reach e b c) : Reach e a c := by
  induction h1 with
  | base hm => exact Reach.step hm h2
  | step hm _ ih => exact Reach.step hm (ih h2)

/-- Decomposition of reachability after inserting the single edge
`(n, p)`: either the path avoids the new edge, or it enters at `n` and
leaves at `p`. -/
lemma reach_append_single {e : List NoteRelationRow} {n p : Nat} :
    ∀ {u v : Nat}, Reach (e ++ [(n, p)]) u v →
      Reach e u v ∨ ((u = n ∨ Reach e u n) ∧ (v = p ∨ Reach e p v)) := by
  intro u v h
  induction h with
  | base hm =>
      rename_i a b
      rcases List.mem_append.mp hm with hm' | hm'
      · exact Or.inl (Reach.base hm')
      · have heq : (a, b) = (n, p) := List.mem_singleton.mp hm'
        have hu : a = n := congrArg Prod.fst heq
        have hv : b = p := congrArg Prod.snd heq
        exact Or.inr ⟨Or.inl hu, Or.inl hv⟩
  | step hm _ ih =>
      rename_i a w c hwc
      rcases List.mem_append.mp hm with hm' | hm'
      · rcases ih with hwv | ⟨hw, hv⟩
        · exact Or.inl (Reach.step hm' hwv)
        · right
          refine ⟨?_, hv⟩
          rcases hw with hw | hw
          · exact Or.inr (Reach.base (hw ▸ hm'))
          · exact Or.inr (Reach.step hm' hw)
      · have heq : (a, w) = (n, p) := List.mem_singleton.mp hm'
        have hu : a = n := congrArg Prod.fst heq
        have hwp : w = p := congrArg Prod.snd heq
        right
        refine ⟨Or.inl hu, ?_⟩
        rcases ih with hwv | ⟨_, hv⟩
        · exact Or.inr (hwp ▸ hwv)
        · exact hv

/-- A guarded INSERT (`attach`) preserves acyclicity. -/
lemma acyclic_insert {e : List NoteRelationRow} {n p : Nat} (hA : Acyclic e)
    (hg : ¬ wouldCreateCycle e n p) : Acyclic (e ++ [(n, p)]) := by
  intro x hx
  rcases reach_append_single hx with hxx | ⟨h1, h2⟩
  · exact hA x hxx
  · apply hg
    unfold wouldCreateCycle
    rcases h1 with h1 | h1 <;> rcases h2 with h2 | h2
    · exact Or.inl (by rw [← h2, h1])
    · exact Or.inr (h1 ▸ h2)
    · exact Or.inr (h2 ▸ h1)
    · exact Or.inr (reach_trans h2 h1)

/-- A guarded UPDATE (`reparent`) preserves acyclicity. -/
lemma acyclic_update {e : List NoteRelationRow} {n p : Nat} (hA : Acyclic e)
    (hg : ¬ wouldCreateCycle e n p) :
    Acyclic (e.map (fun r => if r.1 == n then (r.1, p) else r)) := by
  have hsub : ∀ r ∈ e.map (fun r => if r.1 == n then (r.1, p) else r),
      r ∈ e.filter (fun r => !(r.1 == n)) ++ [(n, p)] := by
    intro r hr
    rcases List.mem_map.mp hr with ⟨r₀, hr₀, hmap⟩
    by_cases hq : (r₀.1 == n) = true
    · rw [if_pos hq] at hmap
      have hrnp : r = (n, p) := by
        rw [← hmap, eq_of_beq hq]
      exact List.mem_append.mpr (Or.inr (List.mem_singleton.mpr hrnp))
    · rw [if_neg hq] at hmap
      apply List.mem_append.mpr
      left
      apply List.mem_filter.mpr
      refine ⟨hmap ▸ hr₀, ?_⟩
      rw [← hmap]
      cases hb : (r₀.1 == n) with
      | true => exact absurd hb hq
      | false => rfl
  have hsub' : ∀ r ∈ e.filter (fun r => !(r.1 == n)), r ∈ e :=
    fun r hr => (List.mem_filter.mp hr).1
  have hA' : Acyclic (e.filter (fun r => !(r.1 == n))) :=
    fun x hx => hA x (reach_mono hsub' hx)
  have hg' : ¬ wouldCreateCycle (e.filter (fun r => !(r.1 == n))) n p := by
    intro hcyc
    apply hg
    rcases hcyc with hc | hc
    · exact Or.inl hc
    · exact Or.inr (reach_mono hsub' hc)
  have hApp : Acyclic (e.filter (fun r => !(r.1 == n)) ++ [(n, p)]) :=
    acyclic_insert hA' hg'
  intro x hx
  exact hApp x (reach_mono hsub hx)

/-- Every guarded attach/reparent run preserves acyclicity of the edge
set. -/
lemma guardedRun_preserves_acyclic {e : List NoteRelationRow} {ops : List HierarchyOp}
    {e' : List NoteRelationRow} (hrun : GuardedRun e ops e') :
    Acyclic e → Acyclic e' := by
  induction hrun with
  | nil e => exact id
  | cons e e' op ops hg _ ih =>
      intro hA
      apply ih
      cases op with
      | attach n p => exact acyclic_insert hA hg
      | reparent n p => exact acyclic_update hA hg

/-! ## Claim C2 — no-cycle invariant -/

/-- C2: starting from the empty edge set, any sequence of
attach/reparent operations in which every operation passes the
`wouldCreateCycle` check as false before its edge is committed yields an
edge set in which no note is its own ancestor. -/
theorem C2_guarded_ops_acyclic {ops : List HierarchyOp} {e' : List NoteRelationRow}
    (hrun : GuardedRun [] ops e') : Acyclic e' :=
  guardedRun_preserves_acyclic hrun (fun _ hx => reach_nil hx)

/-- C2 witness: the guarded run `attach(1, 2); attach(2, 3)` from the
empty table produces the edge set `[(1, 2), (2, 3)]`, which is
acyclic. -/
theorem C2_guarded_ops_acyclic_witness :
    GuardedRun [] [HierarchyOp.attach 1 2, HierarchyOp.attach 2 3] [(1, 2), (2, 3)]
    ∧ Acyclic [(1, 2), (2, 3)] := by
  have hg1 : opGuard [] (HierarchyOp.attach 1 2) := by
    show ¬ wouldCreateCycle [] 1 2
    intro h
    rcases h with h | h
    · omega
    · exact reach_nil h
  have hg2 : opGuard [(1, 2)] (HierarchyOp.attach 2 3) := by
    show ¬ wouldCreateCycle [(1, 2)] 2 3
    intro h
    rcases h with h | h
    · omega
    · obtain ⟨p, hp⟩ := reach_src_has_edge h
      have : (3, p) = (1, 2) := List.mem_singleton.mp hp
      have h31 : (3 : Nat) = 1 := congrArg Prod.fst this
      omega
  have hrun : GuardedRun [] [HierarchyOp.attach 1 2, HierarchyOp.attach 2 3]
      [(1, 2), (2, 3)] :=
    GuardedRun.cons _ _ _ _ hg1 (GuardedRun.cons _ _ _ _ hg2 (GuardedRun.nil _))
  exact ⟨hrun, C2_guarded_ops_acyclic hrun⟩

/-! ## Claim C8 — bounded ancestry traversal -/

/-- C8 counterexample: on the store corrupted into the cycle `1→2→1`
the recursive CTE never reaches a parentless note — the traversal does
not terminate (there is no bound and no `CycleDetected` failure in the
code). -/
theorem C8_cycle_counterexample : ¬ CTETerminates [(1, 2), (2, 1)] 1 := by
  intro h
  rcases h with ⟨f, hf⟩
  have hin : ∀ g m, (m = 1 ∨ m = 2) →
      (walkEnd [(1, 2), (2, 1)] m g = 1 ∨ walkEnd [(1, 2), (2, 1)] m g = 2) := by
    intro g
    induction g with
    | zero =>
        intro m hm
        exact hm
    | succ g ih =>
        intro m hm
        rcases hm with h1 | h2
        · subst h1
          have hp : getParentNoteIdByNoteId [(1, 2), (2, 1)] 1 = some 2 := by decide
          rw [walkEnd_succ_of_some g hp]
          exact ih 2 (Or.inr rfl)
        · subst h2
          have hp : getParentNoteIdByNoteId [(1, 2), (2, 1)] 2 = some 1 := by decide
          rw [walkEnd_succ_of_some g hp]
          exact ih 1 (Or.inl rfl)
  rcases hin f 1 (Or.inl rfl) with h1 | h2
  · rw [h1] at hf
    exact absurd hf (by decide)
  · rw [h2] at hf
    exact absurd hf (by decide)

/-- C8 (amended): the traversal terminates on every edge set containing
no note that is its own ancestor (within `e.length` steps); on a store
corrupted into a cycle the recursive query itself diverges — the code
neither bounds the walk nor fails with `CycleDetected`. -/
theorem C8_traversal_terminates_on_acyclic (e : List NoteRelationRow) (n : Nat)
    (hA : Acyclic e) : CTETerminates e n :=
  ⟨e.length, walkEnd_length_of_acyclic hA n⟩

/-- C8 witness: on the acyclic store `[(1, 2)]` the traversal from
note 1 terminates. -/
theorem C8_traversal_terminates_on_acyclic_witness : CTETerminates [(1, 2)] 1 := by
  apply C8_traversal_terminates_on_acyclic
  intro x hx
  cases hx with
  | base hm =>
      have : (x, x) = (1, 2) := List.mem_singleton.mp hm
      have h1 : x = 1 := congrArg Prod.fst this
      have h2 : x = 2 := congrArg Prod.snd this
      omega
  | step hm hr =>
      rename_i b
      have heq : (x, b) = (1, 2) := List.mem_singleton.mp hm
      have hb : b = 2 := congrArg Prod.snd heq
      obtain ⟨p, hp⟩ := reach_src_has_edge hr
      rw [hb] at hp
      have : (2, p) = (1, 2) := List.mem_singleton.mp hp
      have h21 : (2 : Nat) = 1 := congrArg Prod.fst this
      omega

/-! ## Claim C9 — regeneration invalidation -/

/-- C9: after `regenerateInvitationHash` replaces a note's stored hash
`h1` with a fresh hash `h2 ≠ h1`, redeeming the old hash `h1` fails with
`InvitationNotFound` for any user and any team state — only the single
currently stored hash is redeemable. -/
theorem C9_regeneration_invalidation
    (store store' : List NoteSettingsRow) (noteId : Nat) (s₀ : NoteSettingsRow)
    (h1 h2 : String) (team : List TeamMember) (userId : Nat)
    (hfind : getNoteSettingsByNoteId store noteId = some s₀)
    (honly : ∀ r ∈ store, r.invitationHash = h1 → r.id = s₀.id)
    (hne : h2 ≠ h1)
    (hreg : regenerateInvitationHash store noteId h2 = some store') :
    addUserToTeamByInvitationHash store' team h1 userId
      = Except.error JoinError.InvitationNotFound := by
  have hstore' : store' = patchInvitationHashById store s₀.id h2 := by
    unfold regenerateInvitationHash patchInvitationHashByNoteId at hreg
    rw [hfind] at hreg
    exact (Option.some.injEq _ _).mp hreg |>.symm
  have hnone : store'.find? (fun r => r.invitationHash == h1) = none := by
    apply List.find?_eq_none.mpr
    intro r hr
    intro hbeq
    rw [hstore'] at hr
    unfold patchInvitationHashById at hr
    rcases List.mem_map.mp hr with ⟨r₀, hr₀, hmap⟩
    by_cases hq : (r₀.id == s₀.id) = true
    · rw [if_pos hq] at hmap
      have hh2 : r.invitationHash = h2 := by rw [← hmap]
      have hh1 : r.invitationHash = h1 := eq_of_beq hbeq
      exact hne (by rw [← hh2, hh1])
    · rw [if_neg hq] at hmap
      have hh1 : r₀.invitationHash = h1 := by
        rw [hmap]
        exact eq_of_beq hbeq
      exact hq (beq_iff_eq.mpr (honly r₀ hr₀ hh1))
  unfold addUserToTeamByInvitationHash
  rw [hnone]

/-- C9 witness: for a store holding one settings row for note 10 with
hash `a`, regeneration to `b` makes redeeming `a` fail with
`InvitationNotFound`. -/
theorem C9_regeneration_invalidation_witness :
    addUserToTeamByInvitationHash [⟨1, 10, none, true, "b"⟩] [] "a" 7
      = Except.error JoinError.InvitationNotFound := by
  exact C9_regeneration_invalidation [⟨1, 10, none, true, "a"⟩]
    [⟨1, 10, none, true, "b"⟩] 10 ⟨1, 10, none, true, "a"⟩ "a" "b" [] 7
    rfl (by decide) (by decide) rfl
